import Mathlib

/-!
Verification of the `CodeGen` engine of `codegen.py` (an LD_PRELOAD
wrapper generator).  The Python class is shallowly embedded: its
instance attributes become the fields of a `CodeGen` structure, its
methods become pure functions threading that structure, Python dicts
(insertion ordered) become association lists, and the string-template
emission is reproduced verbatim.  `str.replace` with a single-character
pattern and empty replacement is modelled as a character filter, and
`str(n)` / `{}`.format on integers is modelled by the decimal renderer
`natRepr` below.
-/

set_option maxRecDepth 100000

/-- Decimal digits of a natural number, as emitted by Python `str`. -/
def natDigits (n : Nat) : List Char :=
  if h : n < 10 then [Char.ofNat (48 + n)]
  else natDigits (n / 10) ++ [Char.ofNat (48 + n % 10)]
termination_by n
decreasing_by exact Nat.div_lt_self (by omega) (by omega)

/-- Decimal rendering of a natural number (Python `str(n)`). -/
def natRepr (n : Nat) : String := ⟨natDigits n⟩

/-- Numeric value of a decimal digit character. -/
def digitVal (c : Char) : Nat := c.toNat - 48

/-- Parse a digit list back to the number it denotes. -/
def digitsToNat (l : List Char) : Nat := l.foldl (fun a c => a * 10 + digitVal c) 0

/-- Boolean prefix test on character lists. -/
def listPrefixOf : List Char → List Char → Bool
  | [], _ => true
  | _ :: _, [] => false
  | a :: as, b :: bs => a == b && listPrefixOf as bs

/-- Boolean substring test on character lists (Python `in` on strings). -/
def containsSubList (pat : List Char) : List Char → Bool
  | [] => pat.isEmpty
  | c :: rest => listPrefixOf pat (c :: rest) || containsSubList pat rest

/-- Boolean substring test on strings (Python `pat in s`). -/
def containsSub (pat s : String) : Bool := containsSubList pat.data s.data

/-- Number of (possibly overlapping) occurrences of `pat` in `s`. -/
def countSubList (pat : List Char) : List Char → Nat
  | [] => 0
  | c :: rest => (if listPrefixOf pat (c :: rest) then 1 else 0) + countSubList pat rest

/-- Number of occurrences of a pattern in a string. -/
def countSub (pat s : String) : Nat := countSubList pat.data s.data

/-- Replace the first occurrence of `pat` by `repl`
(Python `s.replace(pat, repl, 1)`), on character lists. -/
def replaceFirstList (pat repl : List Char) : List Char → List Char
  | [] => []
  | c :: rest =>
      if listPrefixOf pat (c :: rest) then repl ++ (c :: rest).drop pat.length
      else c :: replaceFirstList pat repl rest

/-- Replace the first occurrence of `pat` by `repl` in a string. -/
def replaceFirstStr (pat repl s : String) : String := ⟨replaceFirstList pat.data repl.data s.data⟩

/-- Python `s.replace("@", "")`: delete every at sign. -/
def stripAts (s : String) : String := ⟨s.data.filter (fun c => c != '@')⟩

/-- First-match lookup in an association list (a Python dict read). -/
def assocFind {β : Type} : List (String × β) → String → Option β
  | [], _ => none
  | (k, v) :: rest, key => if k = key then some v else assocFind rest key

/-- Python `s.replace('\n', '\n' + ' ' * k)` on character lists:
the `StringIndenter.__getitem__` helper of the source. -/
def indentNlList (k : Nat) : List Char → List Char
  | [] => []
  | c :: rest => (if c = '\n' then '\n' :: List.replicate k ' ' else [c]) ++ indentNlList k rest

/-- `StringIndenter(contents)[k]` from the source. -/
def stringIndenter (contents : String) (k : Nat) : String := ⟨indentNlList k contents.data⟩

/-- The mutable state of one `CodeGen` instance (`codegen.py`, `__init__`):
the namespace plus every accumulator attribute, with the three Python
dicts (`_version_to_id_map`, `_versioned_functions`, `_typedefs`)
modelled as insertion-ordered association lists. -/
structure CodeGen where
  _namespace : String
  _includes : List String
  _header_body : String
  _source_body : String
  _original_vars : String
  _init_original_body : String
  _version_to_id_map : List (String × Nat)
  _versioned_functions : List (String × List String)
  _typedefs : List (String × String)
deriving Repr, DecidableEq

/-- `CodeGen.__init__(namespace)`. -/
def CodeGen.init (ns : String) : CodeGen :=
  ⟨ns, [], "", "", "", "", [], [], []⟩

/-- `CodeGen._get_version_id`: look the version up in
`_version_to_id_map`, else assign the next id (the current size of the
map) and record it. -/
def CodeGen._get_version_id (g : CodeGen) (version : String) : Nat × CodeGen :=
  match assocFind g._version_to_id_map version with
  | some id => (id, g)
  | none =>
      (g._version_to_id_map.length,
       { g with _version_to_id_map :=
          g._version_to_id_map ++ [(version, g._version_to_id_map.length)] })

/-- `CodeGen._get_internal_name`: the internal disambiguator, either
`name + "__"` (unversioned) or `name + "_" + str(version id)`. -/
def CodeGen._get_internal_name (g : CodeGen) (original_name : String) (version : Option String) :
    String × CodeGen :=
  match version with
  | none => (original_name ++ "__", g)
  | some v =>
      let r := g._get_version_id v
      (original_name ++ "_" ++ natRepr r.1, r.2)

/-- `CodeGen._get_original_var_decl`. -/
def _get_original_var_decl (prototype : List (String × String)) (name : String) : String :=
  (prototype.getD 0 ("", "")).1 ++ "(*" ++ name ++ ")(" ++
    String.intercalate ", " ((prototype.drop 1).map (fun arg_pair => arg_pair.1 ++ " " ++ arg_pair.2)) ++ ")"

/-- `CodeGen._get_inst_func_decl`. -/
def _get_inst_func_decl (prototype : List (String × String)) (name : String) : String :=
  (prototype.getD 0 ("", "")).1 ++ " " ++ name ++ "(" ++
    String.intercalate ", " ((prototype.drop 1).map (fun arg_pair => arg_pair.1 ++ " " ++ arg_pair.2)) ++ ")"

/-- `CodeGen._get_internal_type`: the type interner.  A spelling without
the `(*)` placeholder passes through; a known spelling returns its
typedef identifier; a new spelling is assigned
`{namespace}_internal_type_{k}` with `k = len(self._typedefs)` and a
typedef line is appended to the header body. -/
def CodeGen._get_internal_type (g : CodeGen) (type_decl : String) : String × CodeGen :=
  if containsSub "(*)" type_decl = false then (type_decl, g)
  else
    match assocFind g._typedefs type_decl with
    | some t => (t, g)
    | none =>
        let internal_type := g._namespace ++ "_internal_type_" ++ natRepr g._typedefs.length
        (internal_type,
         { g with
            _header_body := g._header_body ++ "typedef " ++
              replaceFirstStr "(*)" ("(*" ++ internal_type ++ ")") type_decl ++ ";\n",
            _typedefs := g._typedefs ++ [(type_decl, internal_type)] })

/-- `CodeGen.add_include`. -/
def CodeGen.add_include (g : CodeGen) (include_file : String) : CodeGen :=
  { g with _includes := g._includes ++ [include_file] }

/-- The in-place interning loop at the top of `CodeGen.add_function`
(`prototype[index] = (self._get_internal_type(prototype[index][0]),
prototype[index][1])`): returns the rewritten prototype list together
with the updated generator state. -/
def internProtos : CodeGen → List (String × String) → List (String × String) × CodeGen
  | g, [] => ([], g)
  | g, p :: rest =>
      let r := g._get_internal_type p.1
      let r2 := internProtos r.2 rest
      ((r.1, p.2) :: r2.1, r2.2)

/-- The `save_return_value` template argument of `add_function`. -/
def save_return_value_fmt (return_type namespace_ : String) : String :=
  if return_type ≠ "void" then return_type ++ " " ++ namespace_ ++ "_ret_value = " else ""

/-- The `return_saved_value` template argument of `add_function`. -/
def return_saved_value_fmt (return_type namespace_ : String) : String :=
  if return_type ≠ "void" then "return " ++ namespace_ ++ "_ret_value;" else ""

/-- The `return_if_needed` template argument of `add_function`. -/
def return_if_needed_fmt (return_type : String) : String :=
  if return_type = "void" then "" else "return "

/-- `ENTRY_FUNC_TEMPLATE.format(...)`: the trampoline text with every
slot substituted. -/
def ENTRY_FUNC_TEMPLATE_fmt (return_type namespace_ original_var_name entry_func_name
    inst_func_name args_decl_list args_call_list save_return_value return_saved_value
    return_if_needed : String) : String :=
  return_type ++ " " ++ entry_func_name ++ "(" ++ args_decl_list ++ ") \x7b\n  " ++
  namespace_ ++ "_sys_try_init();\n  if (" ++ namespace_ ++ "_sys_inst_on) \x7b\n    " ++
  namespace_ ++ "_sys_flag_inst_on = 0;\n    " ++ save_return_value ++ inst_func_name ++
  "(" ++ args_call_list ++ ");\n    " ++ namespace_ ++ "_sys_flag_inst_on = 1;\n    " ++
  return_saved_value ++ "\n  \x7d\n  else \x7b\n    " ++ return_if_needed ++
  original_var_name ++ "(" ++ args_call_list ++ ");\n  \x7d\n\x7d\n"

/-- The trampoline rendered exactly as `add_function` renders it: the
three return-handling slots are computed from the return type. -/
def renderEntryFunc (namespace_ return_type original_var_name entry_func_name inst_func_name
    args_decl_list args_call_list : String) : String :=
  ENTRY_FUNC_TEMPLATE_fmt return_type namespace_ original_var_name entry_func_name
    inst_func_name args_decl_list args_call_list
    (save_return_value_fmt return_type namespace_)
    (return_saved_value_fmt return_type namespace_)
    (return_if_needed_fmt return_type)

/-- The two-step Python dict update of `_versioned_functions`
(`if version not in d: d[version] = []` followed by
`d[version].append(name)`): append `n` to the entry of `v`, creating
the entry at the end on first sighting.  Keys in this table are unique,
so updating the first matching entry is the dict update. -/
def dictAppend : List (String × List String) → String → String → List (String × List String)
  | [], v, n => [(v, [n])]
  | (k, l) :: rest, v, n =>
      if k = v then (k, l ++ [n]) :: rest else (k, l) :: dictAppend rest v n

/-- The `internal_name` selection of `add_function`
(`self._get_internal_name(prototype[0][1], version) if inst_name is
None else inst_name`): an explicitly supplied instrumentation name
replaces the derived disambiguator outright. -/
def afInternalName (g1 : CodeGen) (original_name : String) (inst_name : Option String)
    (version : Option String) : String × CodeGen :=
  match inst_name with
  | none => g1._get_internal_name original_name version
  | some n => (n, g1)

/-- `CodeGen.add_function`.  Returns the updated generator state
together with the prototype list as the caller observes it after the
in-place mutation performed by the interning loop. -/
def CodeGen.add_function (g : CodeGen) (prototype : List (String × String))
    (includes : List String) (inst_name : Option String) (version_label : Option String) :
    CodeGen × List (String × String) :=
  let ip := internProtos g prototype
  let prototype' := ip.1
  let g1 := ip.2
  let version : Option String := version_label.map stripAts
  let original_name := (prototype'.getD 0 ("", "")).2
  let inr : String × CodeGen := afInternalName g1 original_name inst_name version
  let internal_name := inr.1
  let g2 := inr.2
  let original_var_name := g2._namespace ++ "_orig_" ++ internal_name
  let entry_func_name := g2._namespace ++ "_entry_" ++ internal_name
  let inst_func_name := g2._namespace ++ "_inst_" ++ internal_name
  let g3 := { g2 with
      _header_body := (g2._header_body ++ "extern " ++
        _get_original_var_decl prototype' original_var_name ++ ";\n" ++
        _get_inst_func_decl prototype' inst_func_name ++ ";\n"),
      _original_vars := (g2._original_vars ++
        _get_original_var_decl prototype' original_var_name ++ " = (void*)0;\n") }
  let lookup_call :=
    match version with
    | none => "dlsym(RTLD_NEXT, \"" ++ original_name ++ "\")"
    | some v => "dlvsym(RTLD_NEXT, \"" ++ original_name ++ "\", \"" ++ v ++ "\")"
  let g4 := { g3 with _init_original_body := (g3._init_original_body ++
      original_var_name ++ " = " ++ lookup_call ++ ";\n") }
  let g5 := { g4 with _source_body := (g4._source_body ++
      renderEntryFunc g2._namespace (prototype'.getD 0 ("", "")).1 original_var_name
        entry_func_name inst_func_name
        (String.intercalate ", " ((prototype'.drop 1).map (fun arg_pair => arg_pair.1 ++ " " ++ arg_pair.2)))
        (String.intercalate ", " ((prototype'.drop 1).map (fun arg_pair => arg_pair.2)))) }
  match version_label with
  | none => (g5, prototype')
  | some vl =>
      ({ g5 with
          _source_body := (g5._source_body ++
            "__asm__(\".symver " ++ entry_func_name ++ ", " ++ original_name ++ "@" ++ vl ++ "\");"),
          _versioned_functions := dictAppend g5._versioned_functions (stripAts vl) original_name },
       prototype')

/-- `HEADER_PROLOGUE_TEMPLATE.format(...)`. -/
def HEADER_PROLOGUE_fmt (namespace_ includes : String) : String :=
  "#ifndef __" ++ namespace_ ++ "_inst_h__\n#define __" ++ namespace_ ++ "_inst_h__\n\n" ++
  "#ifdef __cplusplus\nextern \"C\" \x7b\n#endif\n\n" ++ includes ++ "\n\nvoid " ++
  namespace_ ++ "_sys_init(void);\nvoid " ++ namespace_ ++ "_sys_thread_init(void);\nvoid " ++
  namespace_ ++ "_sys_inst_on(void);\nvoid " ++ namespace_ ++ "_sys_inst_off(void);\n\n"

/-- `HEADER_FINALE_CONTENT`. -/
def HEADER_FINALE_CONTENT : String := "#ifdef __cplusplus\n\x7d\n#endif\n#endif\n"

/-- `CodeGen.get_header_contents`. -/
def CodeGen.get_header_contents (g : CodeGen) : String :=
  HEADER_PROLOGUE_fmt g._namespace
    (String.intercalate "\n" (g._includes.map (fun include_file => "#include " ++ include_file)))
  ++ "\n" ++ g._header_body ++ "\n" ++ HEADER_FINALE_CONTENT

/-- `SOURCE_PROLOGUE_TEMPLATE.format(...)`. -/
def SOURCE_PROLOGUE_fmt (namespace_ header_filename original_vars init_original_body : String) :
    String :=
  "#define _GNU_SOURCE\n#include <dlfcn.h>\n#include <pthread.h>\n\n#include \"" ++
  header_filename ++ "\"\n\nstatic          volatile int " ++ namespace_ ++
  "_sys_flag_init = 0;\nstatic __thread volatile int " ++ namespace_ ++
  "_sys_flag_thread_init = 0;\nstatic __thread volatile int " ++ namespace_ ++
  "_sys_flag_inst_on = 0;\n\n" ++ original_vars ++ "\n\nvoid " ++ namespace_ ++
  "_sys_inst_on(void) \x7b " ++ namespace_ ++ "_sys_flag_inst_on = 1; \x7d\nvoid " ++
  namespace_ ++ "_sys_inst_off(void) \x7b " ++ namespace_ ++
  "_sys_flag_inst_on = 0; \x7d\nint  " ++ namespace_ ++ "_sys_inst_save(int nr) \x7b int r = " ++
  namespace_ ++ "_sys_flag_inst_on; " ++ namespace_ ++
  "_sys_flag_inst_on = nr; return r; \x7d\nvoid " ++ namespace_ ++
  "_sys_inst_restore(int r) \x7b " ++ namespace_ ++ "_sys_flag_inst_on = r; \x7d\nvoid " ++
  namespace_ ++ "_sys_try_init() \x7b\n  int r = " ++ namespace_ ++
  "_sys_inst_save(0);\n\n  int _" ++ namespace_ ++ "_sys_flag_init;\n  __atomic_load(&" ++
  namespace_ ++ "_sys_flag_init, &_" ++ namespace_ ++
  "_sys_flag_init, __ATOMIC_ACQUIRE);\n\n  while (_" ++ namespace_ ++
  "_sys_flag_init != 2) \x7b\n    asm volatile(\"pause\\n\": : :\"memory\");\n    _" ++
  namespace_ ++ "_sys_flag_init = 0;\n    int cas = __atomic_compare_exchange_n(&" ++
  namespace_ ++ "_sys_flag_init, &_" ++ namespace_ ++
  "_sys_flag_init, 1, 1, __ATOMIC_ACQ_REL, __ATOMIC_ACQUIRE);\n    if (cas) break;\n  \x7d\n\n  if (_" ++
  namespace_ ++ "_sys_flag_init == 2)\n    goto skip_global;\n\n  " ++
  stringIndenter init_original_body 2 ++ "\n\n  " ++ namespace_ ++
  "_sys_init();\n  __atomic_store_n(&" ++ namespace_ ++
  "_sys_flag_init, 2, __ATOMIC_RELEASE);\n\nskip_global:\n\n  if (" ++ namespace_ ++
  "_sys_flag_thread_init == 0) \x7b\n    " ++ namespace_ ++
  "_sys_flag_thread_init = 1;\n    " ++ namespace_ ++ "_sys_thread_init();\n  \x7d\n  " ++
  namespace_ ++ "_sys_inst_restore(r);\n\x7d\n"

/-- `CodeGen.get_source_contents`. -/
def CodeGen.get_source_contents (g : CodeGen) (header_filename : String) : String :=
  SOURCE_PROLOGUE_fmt g._namespace header_filename g._original_vars g._init_original_body
  ++ "\n" ++ g._source_body

/-- One stanza of the version script
(`"{version} {{ global : {functions}; }};\n"`). -/
def renderVersionEntry (p : String × List String) : String :=
  p.1 ++ " \x7b global : " ++ String.intercalate "; " p.2 ++ "; \x7d;\n"

/-- The accumulation loop of `get_version_contents`. -/
def versionRender : List (String × List String) → String
  | [] => ""
  | p :: rest => renderVersionEntry p ++ versionRender rest

/-- `CodeGen.get_version_contents`. -/
def CodeGen.get_version_contents (g : CodeGen) : String :=
  versionRender g._versioned_functions

/-- `MAKEFILE_TEMPLATE.format(...)`. -/
def MAKEFILE_fmt (basename version_options : String) : String :=
  ".PHONY: all\n\nCC ?= gcc\nCCFLAGS ?= -O2\n\nall: inst.so\n\n" ++ basename ++ ".so: " ++
  basename ++ ".c " ++ basename ++
  ".h\n\t$\x7bCC\x7d $\x7bCCFLAGS\x7d -shared -fPIC -lpthread " ++ version_options ++
  " -o $@ " ++ basename ++ ".c\n"

/-- `CodeGen.generate`, restricted to its pure text outputs (header,
source, optional version script, optional Makefile); filesystem writes
are out of scope.  The Python method assigns the local `has_version`
only inside the branch taken when the version contents are non-empty,
yet the Makefile branch reads `has_version` unconditionally, so when no
version script was produced and a Makefile is requested the method
raises `UnboundLocalError`; that exception is modelled as
`Except.error`. -/
def CodeGen.generate (g : CodeGen) (basename version_filename : String) (makefile : Bool) :
    Except String (String × String × Option String × Option String) :=
  let header := g.get_header_contents
  let source := g.get_source_contents (basename ++ ".h")
  let version_contents := g.get_version_contents
  let version_out : Option String :=
    if version_contents.length > 0 then some version_contents else none
  if makefile then
    match version_out with
    | some _ =>
        Except.ok (header, source, version_out,
          some (MAKEFILE_fmt basename ("-Wl,--version-script -Wl," ++ version_filename)))
    | none =>
        Except.error "UnboundLocalError: local variable has_version referenced before assignment"
  else Except.ok (header, source, version_out, none)

/-- One function entry of a specification: the arguments of one
`add_function` call. -/
structure FnSpec where
  prototype : List (String × String)
  includes : List String
  inst_name : Option String
  version_label : Option String

/-- Feed a list of function entries through `add_function`. -/
def runFns : CodeGen → List FnSpec → CodeGen
  | g, [] => g
  | g, f :: rest => runFns (g.add_function f.prototype f.includes f.inst_name f.version_label).1 rest

/-- A whole input specification: namespace, global includes, functions. -/
structure SpecInput where
  namespace_ : String
  includes : List String
  functions : List FnSpec

/-- One full generation run over a specification. -/
def runSpecGen (s : SpecInput) : CodeGen :=
  runFns (s.includes.foldl CodeGen.add_include (CodeGen.init s.namespace_)) s.functions

/-- The three finalized text documents of a run. -/
def specOutputs (s : SpecInput) (basename : String) : String × String × String :=
  (CodeGen.get_header_contents (runSpecGen s),
   CodeGen.get_source_contents (runSpecGen s) (basename ++ ".h"),
   CodeGen.get_version_contents (runSpecGen s))

/-- The run relates to an output triple (header, source, version script). -/
def Produces (s : SpecInput) (basename : String) (out : String × String × String) : Prop :=
  specOutputs s basename = out

/-- The `internal_name` that one `add_function` call computes for its
entry, as a function of the call arguments (projection of the call used
to state theorems). -/
def afName (g : CodeGen) (p : List (String × String)) (i vl : Option String) : String :=
  (afInternalName (internProtos g p).2 ((p.getD 0 ("", "")).2) i (vl.map stripAts)).1

/-- Spec-side: the stripped version labels of the versioned entries, in
registration order. -/
def versionLabelsOf (fns : List FnSpec) : List String :=
  fns.filterMap (fun f => f.version_label.map stripAts)

/-- Spec-side: the distinct elements of a list not yet in `seen`, in
first-sighting order. -/
def firstSights : List String → List String → List String
  | _, [] => []
  | seen, v :: rest =>
      if v ∈ seen then firstSights seen rest
      else v :: firstSights (seen ++ [v]) rest

/-- The declared (original) name of a function entry. -/
def entryName (f : FnSpec) : String := (f.prototype.getD 0 ("", "")).2

/-- Spec-side: the original names of the entries registered under a
given stripped version label, in registration order. -/
def namesUnder (fns : List FnSpec) (v : String) : List String :=
  (fns.filter (fun f => decide (f.version_label.map stripAts = some v))).map entryName

/-- Spec-side grouping stated by the documentation: one stanza per
distinct stripped version label in first-sighting order, listing the
original names registered under it in registration order. -/
def specGrouping (fns : List FnSpec) : List (String × List String) :=
  (firstSights [] (versionLabelsOf fns)).map (fun v => (v, namesUnder fns v))

/-- Invariant of the type-interner table: the identifier stored at
position `i` is `{namespace}_internal_type_{i}`. -/
def TypedefsInv (g : CodeGen) : Prop :=
  ∀ i : Fin g._typedefs.length,
    (g._typedefs.get i).2 = g._namespace ++ "_internal_type_" ++ natRepr i.val

/-! ### Generic helper lemmas -/

theorem str_data_append (a b : String) : (a ++ b).data = a.data ++ b.data := rfl

theorem str_eq_of_data {a b : String} (h : a.data = b.data) : a = b := by
  cases a; cases b; exact congrArg String.mk h

theorem str_data_inj {a b : String} (h : a = b) : a.data = b.data := by rw [h]

theorem digitsToNat_append (xs : List Char) (c : Char) :
    digitsToNat (xs ++ [c]) = digitsToNat xs * 10 + digitVal c := by
  simp [digitsToNat, List.foldl_append]

theorem digitVal_ofNat : ∀ d, d < 10 → digitVal (Char.ofNat (48 + d)) = d := by decide

theorem digitsToNat_natDigits (n : Nat) : digitsToNat (natDigits n) = n := by
  induction n using Nat.strong_induction_on with
  | _ n ih =>
    rw [natDigits]
    split
    · next h =>
      simpa [digitsToNat, digitVal_ofNat n h] using digitVal_ofNat n h
    · next h =>
      rw [digitsToNat_append, ih (n / 10) (Nat.div_lt_self (by omega) (by omega)),
        digitVal_ofNat _ (Nat.mod_lt n (by omega))]
      omega

theorem natRepr_inj {m n : Nat} (h : natRepr m = natRepr n) : m = n := by
  have hd : natDigits m = natDigits n := str_data_inj h
  have := congrArg digitsToNat hd
  rwa [digitsToNat_natDigits, digitsToNat_natDigits] at this

theorem listPrefixOf_self_append (l t : List Char) : listPrefixOf l (l ++ t) = true := by
  induction l with
  | nil => rfl
  | cons a as ih => simp [listPrefixOf, ih]

theorem containsSubList_cons (pat : List Char) (c : Char) (s : List Char)
    (h : containsSubList pat s = true) : containsSubList pat (c :: s) = true := by
  cases s with
  | nil => simp [containsSubList] at h ⊢; simp [h]
  | cons d rest => simp [containsSubList] at h ⊢; tauto

theorem containsSubList_append_left (pat a s : List Char)
    (h : containsSubList pat s = true) : containsSubList pat (a ++ s) = true := by
  induction a with
  | nil => simpa using h
  | cons c cs ih => simpa using containsSubList_cons pat c (cs ++ s) ih

theorem containsSubList_here (pat b : List Char) (hp : pat ≠ []) :
    containsSubList pat (pat ++ b) = true := by
  cases pat with
  | nil => simp at hp
  | cons p ps =>
    show (listPrefixOf (p :: ps) ((p :: ps) ++ b) || _) = true
    rw [listPrefixOf_self_append]
    simp

theorem containsSubList_middle (pat a b : List Char) (hp : pat ≠ []) :
    containsSubList pat (a ++ (pat ++ b)) = true :=
  containsSubList_append_left pat a _ (containsSubList_here pat b hp)

theorem assocFind_append_some {β : Type} {l : List (String × β)} {k : String} {v : β}
    (l2 : List (String × β)) (h : assocFind l k = some v) :
    assocFind (l ++ l2) k = some v := by
  induction l with
  | nil => simp [assocFind] at h
  | cons p rest ih =>
    obtain ⟨a, b⟩ := p
    by_cases hk : a = k
    · subst hk
      simp [assocFind] at h ⊢
      exact h
    · simp [assocFind, hk] at h ⊢
      exact ih h

theorem assocFind_append_none {β : Type} {l : List (String × β)} {k : String}
    (l2 : List (String × β)) (h : assocFind l k = none) :
    assocFind (l ++ l2) k = assocFind l2 k := by
  induction l with
  | nil => simp [assocFind]
  | cons p rest ih =>
    obtain ⟨a, b⟩ := p
    by_cases hk : a = k
    · subst hk; simp [assocFind] at h
    · simp [assocFind, hk] at h ⊢
      exact ih h

theorem assocFind_mem {β : Type} {l : List (String × β)} {k : String} {v : β}
    (h : assocFind l k = some v) : ∃ i : Fin l.length, l.get i = (k, v) := by
  induction l with
  | nil => simp [assocFind] at h
  | cons p rest ih =>
    obtain ⟨a, b⟩ := p
    by_cases hk : a = k
    · subst hk
      simp [assocFind] at h
      exact ⟨⟨0, by simp⟩, by simp [h]⟩
    · simp [assocFind, hk] at h
      obtain ⟨i, hi⟩ := ih h
      exact ⟨⟨i.val + 1, by simpa using i.isLt⟩, by simpa using hi⟩

/-! ### State-preservation lemmas for the interner and name synthesizer -/

theorem it_namespace (g : CodeGen) (t : String) :
    (g._get_internal_type t).2._namespace = g._namespace := by
  unfold CodeGen._get_internal_type
  split
  · rfl
  · split <;> rfl

theorem it_includes (g : CodeGen) (t : String) :
    (g._get_internal_type t).2._includes = g._includes := by
  unfold CodeGen._get_internal_type
  split
  · rfl
  · split <;> rfl

theorem it_source_body (g : CodeGen) (t : String) :
    (g._get_internal_type t).2._source_body = g._source_body := by
  unfold CodeGen._get_internal_type
  split
  · rfl
  · split <;> rfl

theorem it_original_vars (g : CodeGen) (t : String) :
    (g._get_internal_type t).2._original_vars = g._original_vars := by
  unfold CodeGen._get_internal_type
  split
  · rfl
  · split <;> rfl

theorem it_init_original_body (g : CodeGen) (t : String) :
    (g._get_internal_type t).2._init_original_body = g._init_original_body := by
  unfold CodeGen._get_internal_type
  split
  · rfl
  · split <;> rfl

theorem it_version_to_id_map (g : CodeGen) (t : String) :
    (g._get_internal_type t).2._version_to_id_map = g._version_to_id_map := by
  unfold CodeGen._get_internal_type
  split
  · rfl
  · split <;> rfl

theorem it_versioned_functions (g : CodeGen) (t : String) :
    (g._get_internal_type t).2._versioned_functions = g._versioned_functions := by
  unfold CodeGen._get_internal_type
  split
  · rfl
  · split <;> rfl

theorem ip_namespace (l : List (String × String)) (g : CodeGen) :
    (internProtos g l).2._namespace = g._namespace := by
  induction l generalizing g with
  | nil => rfl
  | cons p rest ih => simp [internProtos, ih, it_namespace]

theorem ip_includes (l : List (String × String)) (g : CodeGen) :
    (internProtos g l).2._includes = g._includes := by
  induction l generalizing g with
  | nil => rfl
  | cons p rest ih => simp [internProtos, ih, it_includes]

theorem ip_source_body (l : List (String × String)) (g : CodeGen) :
    (internProtos g l).2._source_body = g._source_body := by
  induction l generalizing g with
  | nil => rfl
  | cons p rest ih => simp [internProtos, ih, it_source_body]

theorem ip_original_vars (l : List (String × String)) (g : CodeGen) :
    (internProtos g l).2._original_vars = g._original_vars := by
  induction l generalizing g with
  | nil => rfl
  | cons p rest ih => simp [internProtos, ih, it_original_vars]

theorem ip_init_original_body (l : List (String × String)) (g : CodeGen) :
    (internProtos g l).2._init_original_body = g._init_original_body := by
  induction l generalizing g with
  | nil => rfl
  | cons p rest ih => simp [internProtos, ih, it_init_original_body]

theorem ip_version_to_id_map (l : List (String × String)) (g : CodeGen) :
    (internProtos g l).2._version_to_id_map = g._version_to_id_map := by
  induction l generalizing g with
  | nil => rfl
  | cons p rest ih => simp [internProtos, ih, it_version_to_id_map]

theorem ip_versioned_functions (l : List (String × String)) (g : CodeGen) :
    (internProtos g l).2._versioned_functions = g._versioned_functions := by
  induction l generalizing g with
  | nil => rfl
  | cons p rest ih => simp [internProtos, ih, it_versioned_functions]

theorem ip_map_snd (l : List (String × String)) (g : CodeGen) :
    (internProtos g l).1.map Prod.snd = l.map Prod.snd := by
  induction l generalizing g with
  | nil => rfl
  | cons p rest ih => simp [internProtos, ih]

theorem ip_length (l : List (String × String)) (g : CodeGen) :
    (internProtos g l).1.length = l.length := by
  induction l generalizing g with
  | nil => rfl
  | cons p rest ih => simp [internProtos, ih]

theorem ip_getD_snd (l : List (String × String)) (g : CodeGen) :
    ((internProtos g l).1.getD 0 ("", "")).2 = (l.getD 0 ("", "")).2 := by
  cases l with
  | nil => rfl
  | cons p rest => simp [internProtos]

theorem ip_get0_snd (l : List (String × String)) (g : CodeGen) :
    (((internProtos g l).1[0]?).getD ("", "")).2 = ((l[0]?).getD ("", "")).2 := by
  cases l with
  | nil => rfl
  | cons p rest => simp [internProtos]

theorem gvi_fields (g : CodeGen) (v : String) :
    (g._get_version_id v).2._namespace = g._namespace ∧
    (g._get_version_id v).2._includes = g._includes ∧
    (g._get_version_id v).2._header_body = g._header_body ∧
    (g._get_version_id v).2._source_body = g._source_body ∧
    (g._get_version_id v).2._original_vars = g._original_vars ∧
    (g._get_version_id v).2._init_original_body = g._init_original_body ∧
    (g._get_version_id v).2._versioned_functions = g._versioned_functions ∧
    (g._get_version_id v).2._typedefs = g._typedefs := by
  unfold CodeGen._get_version_id
  split <;> exact ⟨rfl, rfl, rfl, rfl, rfl, rfl, rfl, rfl⟩

theorem gin_fields (g : CodeGen) (n : String) (v : Option String) :
    (g._get_internal_name n v).2._namespace = g._namespace ∧
    (g._get_internal_name n v).2._includes = g._includes ∧
    (g._get_internal_name n v).2._header_body = g._header_body ∧
    (g._get_internal_name n v).2._source_body = g._source_body ∧
    (g._get_internal_name n v).2._original_vars = g._original_vars ∧
    (g._get_internal_name n v).2._init_original_body = g._init_original_body ∧
    (g._get_internal_name n v).2._versioned_functions = g._versioned_functions ∧
    (g._get_internal_name n v).2._typedefs = g._typedefs := by
  unfold CodeGen._get_internal_name
  cases v with
  | none => exact ⟨rfl, rfl, rfl, rfl, rfl, rfl, rfl, rfl⟩
  | some v => exact gvi_fields g v

theorem ain_fields (g : CodeGen) (n : String) (i : Option String) (v : Option String) :
    (afInternalName g n i v).2._namespace = g._namespace ∧
    (afInternalName g n i v).2._includes = g._includes ∧
    (afInternalName g n i v).2._header_body = g._header_body ∧
    (afInternalName g n i v).2._source_body = g._source_body ∧
    (afInternalName g n i v).2._original_vars = g._original_vars ∧
    (afInternalName g n i v).2._init_original_body = g._init_original_body ∧
    (afInternalName g n i v).2._versioned_functions = g._versioned_functions ∧
    (afInternalName g n i v).2._typedefs = g._typedefs := by
  unfold afInternalName
  cases i with
  | none => exact gin_fields g n v
  | some x => exact ⟨rfl, rfl, rfl, rfl, rfl, rfl, rfl, rfl⟩

theorem ain_namespace (g : CodeGen) (n : String) (i v : Option String) :
    (afInternalName g n i v).2._namespace = g._namespace := (ain_fields g n i v).1

theorem ain_includes (g : CodeGen) (n : String) (i v : Option String) :
    (afInternalName g n i v).2._includes = g._includes := (ain_fields g n i v).2.1

theorem ain_header_body (g : CodeGen) (n : String) (i v : Option String) :
    (afInternalName g n i v).2._header_body = g._header_body := (ain_fields g n i v).2.2.1

theorem ain_source_body (g : CodeGen) (n : String) (i v : Option String) :
    (afInternalName g n i v).2._source_body = g._source_body := (ain_fields g n i v).2.2.2.1

theorem ain_original_vars (g : CodeGen) (n : String) (i v : Option String) :
    (afInternalName g n i v).2._original_vars = g._original_vars :=
  (ain_fields g n i v).2.2.2.2.1

theorem ain_init_original_body (g : CodeGen) (n : String) (i v : Option String) :
    (afInternalName g n i v).2._init_original_body = g._init_original_body :=
  (ain_fields g n i v).2.2.2.2.2.1

theorem ain_versioned_functions (g : CodeGen) (n : String) (i v : Option String) :
    (afInternalName g n i v).2._versioned_functions = g._versioned_functions :=
  (ain_fields g n i v).2.2.2.2.2.2.1

theorem ain_typedefs (g : CodeGen) (n : String) (i v : Option String) :
    (afInternalName g n i v).2._typedefs = g._typedefs :=
  (ain_fields g n i v).2.2.2.2.2.2.2

/-! ### Unfolding lemmas for `add_function` -/

theorem af_namespace (g : CodeGen) (p : List (String × String)) (inc : List String)
    (i vl : Option String) :
    (g.add_function p inc i vl).1._namespace = g._namespace := by
  unfold CodeGen.add_function
  cases vl <;> simp [ain_namespace, ip_namespace]

theorem af_includes (g : CodeGen) (p : List (String × String)) (inc : List String)
    (i vl : Option String) :
    (g.add_function p inc i vl).1._includes = g._includes := by
  unfold CodeGen.add_function
  cases vl <;> simp [ain_includes, ip_includes]

theorem af_typedefs (g : CodeGen) (p : List (String × String)) (inc : List String)
    (i vl : Option String) :
    (g.add_function p inc i vl).1._typedefs = (internProtos g p).2._typedefs := by
  unfold CodeGen.add_function
  cases vl <;> simp [ain_typedefs]

theorem af_prototype (g : CodeGen) (p : List (String × String)) (inc : List String)
    (i vl : Option String) :
    (g.add_function p inc i vl).2 = (internProtos g p).1 := by
  unfold CodeGen.add_function
  cases vl <;> simp

theorem af_version_to_id_map (g : CodeGen) (p : List (String × String)) (inc : List String)
    (i vl : Option String) :
    (g.add_function p inc i vl).1._version_to_id_map =
      (afInternalName (internProtos g p).2 ((p.getD 0 ("", "")).2) i
        (vl.map stripAts)).2._version_to_id_map := by
  unfold CodeGen.add_function
  cases vl <;> simp [ip_get0_snd]

theorem af_versioned_functions (g : CodeGen) (p : List (String × String)) (inc : List String)
    (i vl : Option String) :
    (g.add_function p inc i vl).1._versioned_functions =
      (match vl with
       | none => g._versioned_functions
       | some l => dictAppend g._versioned_functions (stripAts l) ((p.getD 0 ("", "")).2)) := by
  unfold CodeGen.add_function
  cases vl <;> simp [ain_versioned_functions, ip_versioned_functions, ip_get0_snd]

theorem str_append_assoc (a b c : String) : (a ++ b) ++ c = a ++ (b ++ c) :=
  str_eq_of_data (by simp [str_data_append])

theorem str_append_empty (a : String) : a ++ "" = a :=
  str_eq_of_data (by simp [str_data_append])

theorem af_header_body (g : CodeGen) (p : List (String × String)) (inc : List String)
    (i vl : Option String) :
    (g.add_function p inc i vl).1._header_body =
      (internProtos g p).2._header_body ++ "extern " ++
        _get_original_var_decl (internProtos g p).1
          (g._namespace ++ "_orig_" ++ afName g p i vl) ++ ";\n" ++
        _get_inst_func_decl (internProtos g p).1
          (g._namespace ++ "_inst_" ++ afName g p i vl) ++ ";\n" := by
  unfold CodeGen.add_function afName
  cases vl <;>
    simp [ain_header_body, ain_namespace, ip_namespace, ip_get0_snd]

theorem af_original_vars (g : CodeGen) (p : List (String × String)) (inc : List String)
    (i vl : Option String) :
    (g.add_function p inc i vl).1._original_vars =
      g._original_vars ++
        _get_original_var_decl (internProtos g p).1
          (g._namespace ++ "_orig_" ++ afName g p i vl) ++ " = (void*)0;\n" := by
  unfold CodeGen.add_function afName
  cases vl <;>
    simp [ain_original_vars, ip_original_vars, ain_namespace, ip_namespace, ip_get0_snd]

theorem af_init_original_body (g : CodeGen) (p : List (String × String)) (inc : List String)
    (i vl : Option String) :
    (g.add_function p inc i vl).1._init_original_body =
      g._init_original_body ++
        (g._namespace ++ "_orig_" ++ afName g p i vl) ++ " = " ++
        (match vl with
         | none => "dlsym(RTLD_NEXT, \"" ++ (p.getD 0 ("", "")).2 ++ "\")"
         | some l =>
             "dlvsym(RTLD_NEXT, \"" ++ (p.getD 0 ("", "")).2 ++ "\", \"" ++ stripAts l ++ "\")") ++
        ";\n" := by
  unfold CodeGen.add_function afName
  cases vl <;>
    simp [ain_init_original_body, ip_init_original_body, ain_namespace, ip_namespace, ip_get0_snd]

theorem af_source_body (g : CodeGen) (p : List (String × String)) (inc : List String)
    (i vl : Option String) :
    (g.add_function p inc i vl).1._source_body =
      g._source_body ++
        renderEntryFunc g._namespace ((internProtos g p).1.getD 0 ("", "")).1
          (g._namespace ++ "_orig_" ++ afName g p i vl)
          (g._namespace ++ "_entry_" ++ afName g p i vl)
          (g._namespace ++ "_inst_" ++ afName g p i vl)
          (String.intercalate ", " (((internProtos g p).1.drop 1).map
            (fun arg_pair => arg_pair.1 ++ " " ++ arg_pair.2)))
          (String.intercalate ", " (((internProtos g p).1.drop 1).map
            (fun arg_pair => arg_pair.2))) ++
        (match vl with
         | none => ""
         | some l =>
             "__asm__(\".symver " ++ (g._namespace ++ "_entry_" ++ afName g p i vl) ++ ", " ++
               (p.getD 0 ("", "")).2 ++ "@" ++ l ++ "\");") := by
  unfold CodeGen.add_function afName
  cases vl <;>
    simp [ain_source_body, ip_source_body, ain_namespace, ip_namespace, ip_get0_snd,
      str_append_empty, str_append_assoc]

/-! ### Claim theorems -/

/-- Claim C1: the claim says that generating with a Makefile requested
succeeds for an all-unversioned specification and the build file merely
omits the version-script linker option.  The code instead reads the
local `has_version`, which is only ever assigned inside the branch that
emits a non-empty version script, so the call raises
`UnboundLocalError` (modelled as `Except.error`): the code contradicts
the obvious intent of its own conditional expression, which selects an
empty `version_options` exactly when `has_version` is falsy.  This
theorem evaluates the model at the failing input. -/
theorem C1_unversioned_makefile_crashes :
    (((CodeGen.init "ns").add_function [("int", "foo"), ("int", "x")] [] none none).1.generate
        "inst" "version.txt" true) =
      Except.error "UnboundLocalError: local variable has_version referenced before assignment" :=
  rfl

/-- Claim C2, counterexample: for the non-void entry `int foo(int x)`
the emitted trampoline contains two return statements (one per branch),
not exactly one at a single exit point as claimed. -/
theorem C2_counterexample :
    countSub "return"
        (((CodeGen.init "ns").add_function [("int", "foo"), ("int", "x")] [] none none).1._source_body) ≠ 1 ∧
    countSub "return"
        (((CodeGen.init "ns").add_function [("int", "foo"), ("int", "x")] [] none none).1._source_body) = 2 := by
  refine ⟨?_, ?_⟩ <;> decide

/-- Claim C2, amended: for a `void` return type all three
return-handling slots of the trampoline template are empty (no
temporary, no return statement); for any other return type the hook
branch captures the hook result into the `{ns}_ret_value` temporary and
returns it, while the else branch directly returns the result of the
true implementation — two return statements, one per branch, rather than a
single exit point.  The two closed conjuncts count the `return`
occurrences in a concrete void/non-void rendering. -/
theorem C2_return_handling (ns rt ov en inf ad ac : String) :
    (rt = "void" →
      renderEntryFunc ns rt ov en inf ad ac =
        ENTRY_FUNC_TEMPLATE_fmt rt ns ov en inf ad ac "" "" "") ∧
    (rt ≠ "void" →
      renderEntryFunc ns rt ov en inf ad ac =
        ENTRY_FUNC_TEMPLATE_fmt rt ns ov en inf ad ac
          (rt ++ " " ++ ns ++ "_ret_value = ") ("return " ++ ns ++ "_ret_value;") "return ") ∧
    countSub "return" (renderEntryFunc "ns" "void" "o" "e" "i" "int x" "x") = 0 ∧
    countSub "return" (renderEntryFunc "ns" "int" "o" "e" "i" "int x" "x") = 2 := by
  refine ⟨?_, ?_, by decide, by decide⟩
  · intro h
    subst h
    rfl
  · intro h
    simp [renderEntryFunc, save_return_value_fmt, return_saved_value_fmt, return_if_needed_fmt, h]

/-- Witness for C2: the amended theorem instantiated at the non-void
return type `long`. -/
theorem C2_return_handling_witness :
    renderEntryFunc "n" "long" "o" "e" "i" "" "" =
      ENTRY_FUNC_TEMPLATE_fmt "long" "n" "o" "e" "i" "" ""
        ("long" ++ " " ++ "n" ++ "_ret_value = ") ("return " ++ "n" ++ "_ret_value;") "return " :=
  (C2_return_handling "n" "long" "o" "e" "i" "" "").2.1 (by decide)

/-- Claim C3, counterexample: with an explicit hook name `myhook` for
entry `int foo(int x)`, the header declares `ns_inst_myhook` (the
supplied name is namespace-prefixed, not used verbatim) and the storage
variable is `ns_orig_myhook`, not the claimed `ns_orig_foo__` derived
from the internal disambiguator. -/
theorem C3_counterexample :
    ((CodeGen.init "ns").add_function [("int", "foo"), ("int", "x")] [] (some "myhook") none).1._header_body =
      "extern int(*ns_orig_myhook)(int x);\nint ns_inst_myhook(int x);\n" ∧
    containsSub "int myhook(int x);"
      ((CodeGen.init "ns").add_function [("int", "foo"), ("int", "x")] [] (some "myhook") none).1._header_body = false ∧
    containsSub "ns_orig_foo__"
      ((CodeGen.init "ns").add_function [("int", "foo"), ("int", "x")] [] (some "myhook") none).1._header_body = false := by
  refine ⟨rfl, by decide, by decide⟩

/-- Claim C3, amended: a supplied instrumentation name does not appear
verbatim; it replaces the internal disambiguator, so all three derived
identifiers are `{ns}_orig_{inst_name}`, `{ns}_entry_{inst_name}` and
`{ns}_inst_{inst_name}`; in particular the hook identifier is
namespace-prefixed and never equals the supplied name. -/
theorem C3_supplied_hook_name (g : CodeGen) (p : List (String × String)) (inc : List String)
    (iname : String) (vl : Option String) :
    afName g p (some iname) vl = iname ∧
    (g.add_function p inc (some iname) vl).1._header_body =
      (internProtos g p).2._header_body ++ "extern " ++
        _get_original_var_decl (internProtos g p).1 (g._namespace ++ "_orig_" ++ iname) ++ ";\n" ++
        _get_inst_func_decl (internProtos g p).1 (g._namespace ++ "_inst_" ++ iname) ++ ";\n" ∧
    g._namespace ++ "_inst_" ++ iname ≠ iname := by
  refine ⟨rfl, ?_, ?_⟩
  · have h := af_header_body g p inc (some iname) vl
    simpa [afName, afInternalName] using h
  · intro h
    have h2 := congrArg String.length h
    rw [String.length_append, String.length_append] at h2
    have h3 : ("_inst_" : String).length = 6 := rfl
    omega

/-- Witness for C3: the amended theorem instantiated at a concrete
generator state and hook name. -/
theorem C3_supplied_hook_name_witness :
    afName (CodeGen.init "ns") [("int", "foo")] (some "h") none = "h" ∧
    "ns" ++ "_inst_" ++ "h" ≠ "h" :=
  ⟨(C3_supplied_hook_name (CodeGen.init "ns") [("int", "foo")] [] "h" none).1,
   (C3_supplied_hook_name (CodeGen.init "ns") [("int", "foo")] [] "h" none).2.2⟩

/-- Claim C4, counterexample: adding the same global include twice makes
it appear twice in the header (duplicates are not suppressed), and an
extra include passed to `add_function` never appears at all (the
`includes` parameter is ignored by the method body). -/
theorem C4_counterexample :
    ((((CodeGen.init "ns").add_include "<a.h>").add_include "<a.h>").add_function
        [("int", "foo"), ("int", "x")] ["<b.h>"] none none).1._includes = ["<a.h>", "<a.h>"] ∧
    countSub "#include <a.h>"
      (((((CodeGen.init "ns").add_include "<a.h>").add_include "<a.h>").add_function
          [("int", "foo"), ("int", "x")] ["<b.h>"] none none).1.get_header_contents) = 2 ∧
    containsSub "<b.h>"
      (((((CodeGen.init "ns").add_include "<a.h>").add_include "<a.h>").add_function
          [("int", "foo"), ("int", "x")] ["<b.h>"] none none).1.get_header_contents) = false := by
  refine ⟨rfl, by decide, by decide⟩

/-- Claim C4, amended: the header lists exactly the includes passed to
`add_include`, in registration order and with duplicates preserved;
the per-function `includes` argument of `add_function` is ignored, so
per-function extra includes never reach the header. -/
theorem C4_includes_behavior (g : CodeGen) (f : String) (p : List (String × String))
    (inc : List String) (i vl : Option String) :
    (g.add_include f)._includes = g._includes ++ [f] ∧
    ((g.add_include f).add_include f)._includes = g._includes ++ [f, f] ∧
    (g.add_function p inc i vl).1._includes = g._includes ∧
    g.get_header_contents =
      HEADER_PROLOGUE_fmt g._namespace
        (String.intercalate "\n" (g._includes.map (fun include_file => "#include " ++ include_file)))
      ++ "\n" ++ g._header_body ++ "\n" ++ HEADER_FINALE_CONTENT := by
  refine ⟨rfl, by simp [CodeGen.add_include], af_includes g p inc i vl, rfl⟩

theorem containsSubList_single_of_mem {c : Char} {l : List Char} (h : c ∈ l) :
    containsSubList [c] l = true := by
  induction l with
  | nil => simp at h
  | cons d rest ih =>
    simp only [containsSubList, Bool.or_eq_true]
    rcases List.mem_cons.mp h with rfl | h2
    · left
      simp [listPrefixOf]
    · right
      exact ih h2

theorem not_mem_of_containsSubList_single {c : Char} {l : List Char}
    (h : containsSubList [c] l = false) : ∀ d ∈ l, d ≠ c := by
  intro d hd hdc
  subst hdc
  rw [containsSubList_single_of_mem hd] at h
  exact absurd h (by simp)

theorem stripAts_leading_at (rest : String) (h : containsSub "@" rest = false) :
    stripAts ("@" ++ rest) = rest := by
  apply str_eq_of_data
  have hmem : ∀ d ∈ rest.data, d ≠ '@' :=
    not_mem_of_containsSubList_single (c := '@') (l := rest.data) h
  show (("@" ++ rest).data.filter (fun c => c != '@')) = rest.data
  have h2 : ("@" ++ rest).data = '@' :: rest.data := rfl
  rw [h2, List.filter_cons, if_neg (by simp)]
  exact List.filter_eq_self.mpr (fun a ha => by simpa using hmem a ha)

/-- Claim C6: without a version label the internal disambiguator is
`name + "__"`; with one, the (stripped) label is assigned the next
0-based id (the current size of the version map) at first sighting,
recorded in the map, reused stably at later sightings, and the
disambiguator is `name + "_" + str(id)`. -/
theorem C6_internal_name (g : CodeGen) (name name2 v : String) :
    g._get_internal_name name none = (name ++ "__", g) ∧
    (assocFind g._version_to_id_map v = none →
      (g._get_internal_name name (some v)).1 =
        name ++ "_" ++ natRepr g._version_to_id_map.length ∧
      (g._get_internal_name name (some v)).2._version_to_id_map =
        g._version_to_id_map ++ [(v, g._version_to_id_map.length)]) ∧
    (∀ id, assocFind g._version_to_id_map v = some id →
      g._get_internal_name name (some v) = (name ++ "_" ++ natRepr id, g)) ∧
    (assocFind g._version_to_id_map v = none →
      ((g._get_internal_name name (some v)).2._get_internal_name name2 (some v)).1 =
        name2 ++ "_" ++ natRepr g._version_to_id_map.length) := by
  refine ⟨rfl, ?_, ?_, ?_⟩
  · intro h
    constructor <;> simp [CodeGen._get_internal_name, CodeGen._get_version_id, h]
  · intro id h
    simp [CodeGen._get_internal_name, CodeGen._get_version_id, h]
  · intro h
    simp [CodeGen._get_internal_name, CodeGen._get_version_id, h,
      assocFind_append_none _ h, assocFind]

/-- Witness for C6: first sighting of a version label in a fresh run
assigns id 0. -/
theorem C6_internal_name_witness :
    ((CodeGen.init "ns")._get_internal_name "foo" (some "V1")).1 = "foo" ++ "_" ++ natRepr 0 :=
  ((C6_internal_name (CodeGen.init "ns") "foo" "bar" "V1").2.1 rfl).1

/-- Claim C9: for a versioned entry the label stripped of every at sign
is what keys the dlvsym lookup string, the version-id map, and the
version-script table, while the raw label is spliced verbatim after the
separator into the emitted `.symver` directive; hence a label written
with a leading at sign produces the default-version binding
`name@@version`. -/
theorem C9_label_stripping (g : CodeGen) (p : List (String × String)) (inc : List String)
    (i : Option String) (vl : String) :
    (g.add_function p inc i (some vl)).1._init_original_body =
      g._init_original_body ++
        (g._namespace ++ "_orig_" ++ afName g p i (some vl)) ++ " = " ++
        ("dlvsym(RTLD_NEXT, \"" ++ (p.getD 0 ("", "")).2 ++ "\", \"" ++ stripAts vl ++ "\")") ++
        ";\n" ∧
    (g.add_function p inc i (some vl)).1._versioned_functions =
      dictAppend g._versioned_functions (stripAts vl) ((p.getD 0 ("", "")).2) ∧
    (i = none → assocFind g._version_to_id_map (stripAts vl) = none →
      (g.add_function p inc i (some vl)).1._version_to_id_map =
        g._version_to_id_map ++ [(stripAts vl, g._version_to_id_map.length)]) ∧
    (g.add_function p inc i (some vl)).1._source_body =
      g._source_body ++
        renderEntryFunc g._namespace ((internProtos g p).1.getD 0 ("", "")).1
          (g._namespace ++ "_orig_" ++ afName g p i (some vl))
          (g._namespace ++ "_entry_" ++ afName g p i (some vl))
          (g._namespace ++ "_inst_" ++ afName g p i (some vl))
          (String.intercalate ", " (((internProtos g p).1.drop 1).map
            (fun arg_pair => arg_pair.1 ++ " " ++ arg_pair.2)))
          (String.intercalate ", " (((internProtos g p).1.drop 1).map
            (fun arg_pair => arg_pair.2))) ++
        ("__asm__(\".symver " ++ (g._namespace ++ "_entry_" ++ afName g p i (some vl)) ++ ", " ++
          (p.getD 0 ("", "")).2 ++ "@" ++ vl ++ "\");") ∧
    (∀ rest : String, containsSub "@" rest = false → stripAts ("@" ++ rest) = rest) ∧
    (∀ rest : String, vl = "@" ++ rest →
      (p.getD 0 ("", "")).2 ++ "@" ++ vl = (p.getD 0 ("", "")).2 ++ "@@" ++ rest) := by
  refine ⟨?_, ?_, ?_, ?_, fun rest h => stripAts_leading_at rest h, ?_⟩
  · simpa using af_init_original_body g p inc i (some vl)
  · simpa using af_versioned_functions g p inc i (some vl)
  · intro hi h
    subst hi
    rw [af_version_to_id_map]
    simp [afInternalName, CodeGen._get_internal_name, CodeGen._get_version_id,
      ip_version_to_id_map, h]
  · simpa using af_source_body g p inc i (some vl)
  · intro rest hrest
    subst hrest
    apply str_eq_of_data
    have h1 : ("@" : String).data = ['@'] := rfl
    have h2 : ("@@" : String).data = ['@', '@'] := rfl
    simp [str_data_append, h1, h2]

/-- Witness for C9: the label `@V1` strips to `V1`, and the version-id
map of a fresh run keys the entry on the stripped label. -/
theorem C9_label_stripping_witness :
    stripAts ("@" ++ "V1") = "V1" ∧
    ((CodeGen.init "ns").add_function [("int", "foo")] [] none (some "@V1")).1._version_to_id_map =
      [("V1", 0)] := by
  constructor
  · exact (C9_label_stripping (CodeGen.init "ns") [("int", "foo")] [] none "@V1").2.2.2.2.1
      "V1" (by decide)
  · have h := (C9_label_stripping (CodeGen.init "ns") [("int", "foo")] [] none "@V1").2.2.1
      rfl (by decide)
    simpa using h

theorem itype_no_placeholder {t : String} (g : CodeGen) (h : containsSub "(*)" t = false) :
    g._get_internal_type t = (t, g) := by
  unfold CodeGen._get_internal_type
  simp [h]

theorem itype_self_find {t : String} (g : CodeGen) (h : containsSub "(*)" t = true) :
    assocFind (g._get_internal_type t).2._typedefs t = some (g._get_internal_type t).1 := by
  unfold CodeGen._get_internal_type
  rw [if_neg (by simp [h])]
  cases hf : assocFind g._typedefs t with
  | some v => simp [hf]
  | none => simp [hf, assocFind_append_none _ hf, assocFind]

theorem itype_find_mono {k v : String} (g : CodeGen) (t : String)
    (h : assocFind g._typedefs k = some v) :
    assocFind (g._get_internal_type t).2._typedefs k = some v := by
  unfold CodeGen._get_internal_type
  split
  · exact h
  · cases hf : assocFind g._typedefs t with
    | some w => simpa [hf] using h
    | none => simpa [hf] using assocFind_append_some _ h

theorem ip_find_mono {k v : String} (l : List (String × String)) (g : CodeGen)
    (h : assocFind g._typedefs k = some v) :
    assocFind (internProtos g l).2._typedefs k = some v := by
  induction l generalizing g with
  | nil => exact h
  | cons q rest ih => simpa [internProtos] using ih _ (itype_find_mono g q.1 h)

theorem ip_types (l : List (String × String)) (g : CodeGen) :
    ∀ n, n < l.length →
      (containsSub "(*)" (l.getD n ("", "")).1 = false →
        ((internProtos g l).1.getD n ("", "")).1 = (l.getD n ("", "")).1) ∧
      (containsSub "(*)" (l.getD n ("", "")).1 = true →
        assocFind (internProtos g l).2._typedefs (l.getD n ("", "")).1 =
          some ((internProtos g l).1.getD n ("", "")).1) := by
  induction l generalizing g with
  | nil =>
    intro n hn
    simp at hn
  | cons q rest ih =>
    intro n hn
    cases n with
    | zero =>
      constructor
      · intro h
        rw [List.getD_cons_zero] at h
        simp [internProtos, List.getD_cons_zero, itype_no_placeholder g h]
      · intro h
        rw [List.getD_cons_zero] at h
        have h1 := itype_self_find g h
        have h2 := ip_find_mono rest ((g._get_internal_type q.1).2) h1
        simpa [internProtos, List.getD_cons_zero] using h2
    | succ m =>
      have hm : m < rest.length := by simpa using hn
      constructor
      · intro h
        have := (ih ((g._get_internal_type q.1).2) m hm).1 (by simpa using h)
        simpa [internProtos, List.getD_cons_succ] using this
      · intro h
        have := (ih ((g._get_internal_type q.1).2) m hm).2 (by simpa using h)
        simpa [internProtos, List.getD_cons_succ] using this

/-- Claim C10: `add_function` hands back the prototype list it mutated
in place: same length, names untouched, every placeholder-free type
spelling unchanged, and every spelling containing the placeholder
replaced by exactly the typedef identifier the interner recorded for it
in the typedef table of the generator. -/
theorem C10_prototype_mutation (g : CodeGen) (p : List (String × String)) (inc : List String)
    (i vl : Option String) :
    (g.add_function p inc i vl).2.length = p.length ∧
    (g.add_function p inc i vl).2.map Prod.snd = p.map Prod.snd ∧
    (∀ n, n < p.length → containsSub "(*)" (p.getD n ("", "")).1 = false →
      ((g.add_function p inc i vl).2.getD n ("", "")).1 = (p.getD n ("", "")).1) ∧
    (∀ n, n < p.length → containsSub "(*)" (p.getD n ("", "")).1 = true →
      assocFind (g.add_function p inc i vl).1._typedefs (p.getD n ("", "")).1 =
        some (((g.add_function p inc i vl).2.getD n ("", "")).1)) := by
  rw [af_prototype, af_typedefs]
  exact ⟨ip_length p g, ip_map_snd p g,
    fun n hn h => (ip_types p g n hn).1 h,
    fun n hn h => (ip_types p g n hn).2 h⟩

/-- Witness for C10: in the interned prototype of
the second entry of `run_tests`, the placeholder spelling was replaced by the
typedef identifier recorded in the table. -/
theorem C10_prototype_mutation_witness :
    assocFind (((CodeGen.init "ns").add_function [("void(*)(int)", "foo"), ("int", "bar")]
        [] none (some "@GLIBC_2.0")).1._typedefs) "void(*)(int)" =
      some ((((CodeGen.init "ns").add_function [("void(*)(int)", "foo"), ("int", "bar")]
        [] none (some "@GLIBC_2.0")).2.getD 0 ("", "")).1) :=
  (C10_prototype_mutation (CodeGen.init "ns") [("void(*)(int)", "foo"), ("int", "bar")]
    [] none (some "@GLIBC_2.0")).2.2.2 0 (by decide) (by decide)

theorem internal_type_name_inj {ns : String} {i j : Nat}
    (h : ns ++ "_internal_type_" ++ natRepr i = ns ++ "_internal_type_" ++ natRepr j) :
    i = j := by
  have hd := str_data_inj h
  rw [str_data_append, str_data_append, str_data_append, str_data_append,
    List.append_assoc, List.append_assoc] at hd
  have h2 := (List.append_right_inj _).mp hd
  have h3 := (List.append_right_inj _).mp h2
  exact natRepr_inj (str_eq_of_data h3)

theorem itype_fresh {g : CodeGen} {t : String} (h : containsSub "(*)" t = true)
    (hf : assocFind g._typedefs t = none) :
    g._get_internal_type t =
      (g._namespace ++ "_internal_type_" ++ natRepr g._typedefs.length,
       { g with
          _header_body := (g._header_body ++ "typedef " ++
            replaceFirstStr "(*)"
              ("(*" ++ (g._namespace ++ "_internal_type_" ++ natRepr g._typedefs.length) ++ ")")
              t ++ ";\n"),
          _typedefs := g._typedefs ++
            [(t, g._namespace ++ "_internal_type_" ++ natRepr g._typedefs.length)] }) := by
  unfold CodeGen._get_internal_type
  rw [if_neg (by simp [h]), hf]

theorem itype_present {g : CodeGen} {t v : String} (h : containsSub "(*)" t = true)
    (hf : assocFind g._typedefs t = some v) :
    g._get_internal_type t = (v, g) := by
  unfold CodeGen._get_internal_type
  rw [if_neg (by simp [h]), hf]

theorem itype_idem (g : CodeGen) (t : String) :
    (g._get_internal_type t).2._get_internal_type t = g._get_internal_type t := by
  by_cases hp : containsSub "(*)" t = true
  · have hs := itype_self_find g hp
    rw [itype_present hp hs]
  · have hp2 : containsSub "(*)" t = false := by simpa using hp
    simp [itype_no_placeholder g hp2]

theorem inv_congr {a b : CodeGen} (ht : a._typedefs = b._typedefs)
    (hn : a._namespace = b._namespace) (h : TypedefsInv b) : TypedefsInv a := by
  unfold TypedefsInv at *
  rw [ht, hn]
  exact h

theorem inv_init (ns : String) : TypedefsInv (CodeGen.init ns) := by
  intro i
  exact absurd i.isLt (by simp [CodeGen.init])

theorem inv_find_internal {g : CodeGen} (hg : TypedefsInv g) {k v : String}
    (h : assocFind g._typedefs k = some v) :
    ∃ idx : Fin g._typedefs.length, g._typedefs.get idx = (k, v) ∧
      v = g._namespace ++ "_internal_type_" ++ natRepr idx.val := by
  obtain ⟨i, hi⟩ := assocFind_mem h
  refine ⟨i, hi, ?_⟩
  have h2 := hg i
  rw [hi] at h2
  exact h2

theorem inv_itype {g : CodeGen} (hg : TypedefsInv g) (t : String) :
    TypedefsInv (g._get_internal_type t).2 := by
  by_cases hp : containsSub "(*)" t = true
  · cases hf : assocFind g._typedefs t with
    | some v => rw [itype_present hp hf]; exact hg
    | none =>
      rw [itype_fresh hp hf]
      intro i
      have hlen : i.val < g._typedefs.length + 1 := by simpa using i.isLt
      by_cases hi : i.val < g._typedefs.length
      · have h1 : (g._typedefs ++
            [(t, g._namespace ++ "_internal_type_" ++ natRepr g._typedefs.length)]).get i =
            g._typedefs.get ⟨i.val, hi⟩ := by
          simp only [List.get_eq_getElem]
          exact List.getElem_append_left hi
        rw [h1]
        exact hg ⟨i.val, hi⟩
      · have hi2 : i.val = g._typedefs.length := by omega
        have h1 : (g._typedefs ++
            [(t, g._namespace ++ "_internal_type_" ++ natRepr g._typedefs.length)]).get i =
            (t, g._namespace ++ "_internal_type_" ++ natRepr g._typedefs.length) := by
          simp only [List.get_eq_getElem]
          rw [List.getElem_append_right (by omega)]
          simp [hi2]
        rw [h1, hi2]
  · have hp2 : containsSub "(*)" t = false := by simpa using hp
    rw [itype_no_placeholder g hp2]
    exact hg

theorem inv_ip {g : CodeGen} (hg : TypedefsInv g) (l : List (String × String)) :
    TypedefsInv (internProtos g l).2 := by
  induction l generalizing g with
  | nil => exact hg
  | cons q rest ih => simpa [internProtos] using ih (inv_itype hg q.1)

theorem inv_af {g : CodeGen} (hg : TypedefsInv g) (p : List (String × String))
    (inc : List String) (i vl : Option String) :
    TypedefsInv (g.add_function p inc i vl).1 := by
  refine inv_congr (af_typedefs g p inc i vl) ?_ (inv_ip hg p)
  rw [af_namespace, ip_namespace]

theorem inv_runFns {g : CodeGen} (hg : TypedefsInv g) (fns : List FnSpec) :
    TypedefsInv (runFns g fns) := by
  induction fns generalizing g with
  | nil => exact hg
  | cons f rest ih => exact ih (inv_af hg f.prototype f.includes f.inst_name f.version_label)

theorem inv_add_include {g : CodeGen} (hg : TypedefsInv g) (f : String) :
    TypedefsInv (g.add_include f) :=
  inv_congr rfl rfl hg

theorem inv_fold_includes {g : CodeGen} (hg : TypedefsInv g) (l : List String) :
    TypedefsInv (l.foldl CodeGen.add_include g) := by
  induction l generalizing g with
  | nil => exact hg
  | cons f rest ih => exact ih (inv_add_include hg f)

theorem inv_runSpecGen (s : SpecInput) : TypedefsInv (runSpecGen s) :=
  inv_runFns (inv_fold_includes (inv_init s.namespace_) s.includes) s.functions

theorem itype_distinct {g : CodeGen} (hg : TypedefsInv g) {t1 t2 : String}
    (h1 : containsSub "(*)" t1 = true) (h2 : containsSub "(*)" t2 = true) (hne : t1 ≠ t2) :
    ((g._get_internal_type t1).2._get_internal_type t2).1 ≠ (g._get_internal_type t1).1 := by
  cases hf1 : assocFind g._typedefs t1 with
  | some v1 =>
    rw [itype_present h1 hf1]
    obtain ⟨i1, hget1, hv1⟩ := inv_find_internal hg hf1
    cases hf2 : assocFind g._typedefs t2 with
    | some v2 =>
      rw [itype_present h2 hf2]
      obtain ⟨i2, hget2, hv2⟩ := inv_find_internal hg hf2
      intro heq
      have hij : i2.val = i1.val := internal_type_name_inj (hv2 ▸ hv1 ▸ heq)
      have : i2 = i1 := Fin.ext hij
      subst this
      rw [hget1] at hget2
      exact hne (congrArg Prod.fst hget2)
    | none =>
      rw [itype_fresh h2 hf2]
      intro heq
      have hij := internal_type_name_inj (hv1 ▸ heq)
      have := i1.isLt
      omega
  | none =>
    rw [itype_fresh h1 hf1]
    cases hf2 : assocFind g._typedefs t2 with
    | some v2 =>
      have hf2b : assocFind (g._typedefs ++
          [(t1, g._namespace ++ "_internal_type_" ++ natRepr g._typedefs.length)]) t2 =
          some v2 := assocFind_append_some _ hf2
      rw [itype_present h2 hf2b]
      obtain ⟨i2, hget2, hv2⟩ := inv_find_internal hg hf2
      intro heq
      have hij := internal_type_name_inj (hv2 ▸ heq)
      have := i2.isLt
      omega
    | none =>
      have hf2b : assocFind (g._typedefs ++
          [(t1, g._namespace ++ "_internal_type_" ++ natRepr g._typedefs.length)]) t2 =
          none := by
        rw [assocFind_append_none _ hf2]
        simp [assocFind, hne]
      rw [itype_fresh h2 hf2b]
      intro heq
      have hij := internal_type_name_inj heq
      simp at hij

/-- Claim C5: the type interner.  For any state satisfying the
typedef-table invariant (which holds in every reachable state of a
generation run, last conjunct): a spelling without the placeholder
passes through uninterned; re-interning a spelling returns the
identifier assigned at first sighting and changes nothing (no second
typedef); a fresh spelling receives
`{namespace}_internal_type_{k}` with `k` the 0-based count of
previously interned distinct spellings; and interning two distinct
placeholder spellings in sequence yields distinct identifiers. -/
theorem C5_type_interner (g : CodeGen) (hg : TypedefsInv g) (t t1 t2 : String) :
    (containsSub "(*)" t = false → g._get_internal_type t = (t, g)) ∧
    ((g._get_internal_type t).2._get_internal_type t = g._get_internal_type t) ∧
    (containsSub "(*)" t = true → assocFind g._typedefs t = none →
      (g._get_internal_type t).1 =
        g._namespace ++ "_internal_type_" ++ natRepr g._typedefs.length) ∧
    (containsSub "(*)" t1 = true → containsSub "(*)" t2 = true → t1 ≠ t2 →
      ((g._get_internal_type t1).2._get_internal_type t2).1 ≠ (g._get_internal_type t1).1) ∧
    (∀ s : SpecInput, TypedefsInv (runSpecGen s)) := by
  refine ⟨fun h => itype_no_placeholder g h, itype_idem g t, ?_, ?_, inv_runSpecGen⟩
  · intro h hf
    rw [itype_fresh h hf]
  · intro h1 h2 hne
    exact itype_distinct hg h1 h2 hne

/-- Witness for C5: from the empty run state, interning
`void(*)(int)` and then `int(*)(int)` yields distinct identifiers,
and the first identifier is `ns_internal_type_0`. -/
theorem C5_type_interner_witness :
    (((CodeGen.init "ns")._get_internal_type "void(*)(int)").2._get_internal_type
        "int(*)(int)").1 ≠ ((CodeGen.init "ns")._get_internal_type "void(*)(int)").1 ∧
    ((CodeGen.init "ns")._get_internal_type "void(*)(int)").1 =
      "ns" ++ "_internal_type_" ++ natRepr 0 :=
  ⟨(C5_type_interner (CodeGen.init "ns") (inv_init "ns") "int" "void(*)(int)"
      "int(*)(int)").2.2.2.1 (by decide) (by decide) (by decide),
   (C5_type_interner (CodeGen.init "ns") (inv_init "ns") "void(*)(int)" "a"
      "b").2.2.1 (by decide) rfl⟩

/-- Claim C8: the generation is deterministic: two runs over the same
specification produce identical header, source and version-script
texts.  The embedding of the generator is a pure function of the
specification, so any two outputs it relates to the same input are
equal. -/
theorem C8_deterministic (s : SpecInput) (basename : String) (o1 o2 : String × String × String)
    (h1 : Produces s basename o1) (h2 : Produces s basename o2) : o1 = o2 :=
  h1.symm.trans h2

/-- Witness for C8: the two hypotheses discharged by `rfl` on the
`run_tests` specification of the source. -/
theorem C8_deterministic_witness :
    specOutputs
        ⟨"ns", ["<stdio.h>"],
         [⟨[("int", "x"), ("int", "y"), ("int", "z")], [], none, none⟩,
          ⟨[("void(*)(int)", "foo"), ("int", "bar")], [], none, some "@GLIBC_2.0"⟩]⟩ "inst" =
      specOutputs
        ⟨"ns", ["<stdio.h>"],
         [⟨[("int", "x"), ("int", "y"), ("int", "z")], [], none, none⟩,
          ⟨[("void(*)(int)", "foo"), ("int", "bar")], [], none, some "@GLIBC_2.0"⟩]⟩ "inst" :=
  C8_deterministic
    ⟨"ns", ["<stdio.h>"],
     [⟨[("int", "x"), ("int", "y"), ("int", "z")], [], none, none⟩,
      ⟨[("void(*)(int)", "foo"), ("int", "bar")], [], none, some "@GLIBC_2.0"⟩]⟩ "inst" _ _ rfl rfl

theorem dictAppend_keys (T : List (String × List String)) (v n : String) :
    (dictAppend T v n).map Prod.fst =
      if v ∈ T.map Prod.fst then T.map Prod.fst else T.map Prod.fst ++ [v] := by
  induction T with
  | nil => simp [dictAppend]
  | cons p rest ih =>
    obtain ⟨k, l⟩ := p
    by_cases hk : k = v
    · subst hk
      simp [dictAppend]
    · have hk2 : ¬(v = k) := fun h => hk h.symm
      by_cases hm : v ∈ rest.map Prod.fst
      · simp [dictAppend, hk, hk2, hm, ih]
      · simp [dictAppend, hk, hk2, hm, ih]

theorem dictAppend_find_self (T : List (String × List String)) (v n : String) :
    assocFind (dictAppend T v n) v = some ((assocFind T v).getD [] ++ [n]) := by
  induction T with
  | nil => simp [dictAppend, assocFind]
  | cons p rest ih =>
    obtain ⟨k, l⟩ := p
    by_cases hk : k = v
    · subst hk
      simp [dictAppend, assocFind]
    · simp [dictAppend, assocFind, hk, ih]

theorem dictAppend_find_other (T : List (String × List String)) (v n w : String)
    (hw : w ≠ v) : assocFind (dictAppend T v n) w = assocFind T w := by
  induction T with
  | nil =>
    have h2 : ¬(v = w) := fun h => hw h.symm
    simp [dictAppend, assocFind, h2]
  | cons p rest ih =>
    obtain ⟨k, l⟩ := p
    by_cases hk : k = v
    · subst hk
      have : ¬(k = w) := fun h => hw h.symm
      simp [dictAppend, assocFind, this]
    · by_cases hkw : k = w
      · subst hkw
        simp [dictAppend, assocFind, hk]
      · simp [dictAppend, assocFind, hk, hkw, ih]

theorem versionLabelsOf_cons_none {f : FnSpec} (rest : List FnSpec)
    (h : f.version_label = none) :
    versionLabelsOf (f :: rest) = versionLabelsOf rest := by
  simp [versionLabelsOf, List.filterMap_cons, h]

theorem versionLabelsOf_cons_some {f : FnSpec} (rest : List FnSpec) {vl : String}
    (h : f.version_label = some vl) :
    versionLabelsOf (f :: rest) = stripAts vl :: versionLabelsOf rest := by
  simp [versionLabelsOf, List.filterMap_cons, h]

theorem namesUnder_cons_none {f : FnSpec} (rest : List FnSpec) (v : String)
    (h : f.version_label = none) :
    namesUnder (f :: rest) v = namesUnder rest v := by
  simp [namesUnder, List.filter_cons, h]

theorem namesUnder_cons_some_eq {f : FnSpec} (rest : List FnSpec) {vl : String}
    (h : f.version_label = some vl) :
    namesUnder (f :: rest) (stripAts vl) = entryName f :: namesUnder rest (stripAts vl) := by
  simp [namesUnder, List.filter_cons, h]

theorem namesUnder_cons_some_ne {f : FnSpec} (rest : List FnSpec) (v : String) {vl : String}
    (h : f.version_label = some vl) (hv : stripAts vl ≠ v) :
    namesUnder (f :: rest) v = namesUnder rest v := by
  simp [namesUnder, List.filter_cons, h, hv]

theorem runFns_vf_keys (fns : List FnSpec) (g : CodeGen) :
    (runFns g fns)._versioned_functions.map Prod.fst =
      g._versioned_functions.map Prod.fst ++
        firstSights (g._versioned_functions.map Prod.fst) (versionLabelsOf fns) := by
  induction fns generalizing g with
  | nil => simp [runFns, versionLabelsOf, firstSights]
  | cons f rest ih =>
    have hstep : runFns g (f :: rest) =
        runFns (g.add_function f.prototype f.includes f.inst_name f.version_label).1 rest := rfl
    rw [hstep, ih, af_versioned_functions]
    cases hvl : f.version_label with
    | none =>
      rw [versionLabelsOf_cons_none rest hvl]
    | some vl0 =>
      rw [versionLabelsOf_cons_some rest hvl, dictAppend_keys]
      by_cases hm : stripAts vl0 ∈ g._versioned_functions.map Prod.fst
      · rw [if_pos hm]
        rw [show firstSights (g._versioned_functions.map Prod.fst)
            (stripAts vl0 :: versionLabelsOf rest) =
            firstSights (g._versioned_functions.map Prod.fst) (versionLabelsOf rest) from by
          simp [firstSights, hm]]
      · rw [if_neg hm]
        rw [show firstSights (g._versioned_functions.map Prod.fst)
            (stripAts vl0 :: versionLabelsOf rest) =
            stripAts vl0 :: firstSights (g._versioned_functions.map Prod.fst ++ [stripAts vl0])
              (versionLabelsOf rest) from by
          simp [firstSights, hm]]
        simp [List.append_assoc]

theorem runFns_vf_find (fns : List FnSpec) (g : CodeGen) (v : String) :
    assocFind (runFns g fns)._versioned_functions v =
      (match assocFind g._versioned_functions v with
       | some l => some (l ++ namesUnder fns v)
       | none => if v ∈ versionLabelsOf fns then some (namesUnder fns v) else none) := by
  induction fns generalizing g with
  | nil =>
    cases hf : assocFind g._versioned_functions v <;>
      simp [runFns, namesUnder, versionLabelsOf, hf]
  | cons f rest ih =>
    have hstep : runFns g (f :: rest) =
        runFns (g.add_function f.prototype f.includes f.inst_name f.version_label).1 rest := rfl
    rw [hstep, ih, af_versioned_functions]
    cases hvl : f.version_label with
    | none =>
      rw [versionLabelsOf_cons_none rest hvl, namesUnder_cons_none rest v hvl]
    | some vl0 =>
      rw [versionLabelsOf_cons_some rest hvl]
      by_cases hv : stripAts vl0 = v
      · subst hv
        rw [dictAppend_find_self, namesUnder_cons_some_eq rest hvl]
        cases hf : assocFind g._versioned_functions (stripAts vl0) with
        | some l => simp [hf, entryName]
        | none => simp [hf, entryName]
      · rw [dictAppend_find_other _ _ _ _ (fun h => hv h.symm),
          namesUnder_cons_some_ne rest v hvl hv]
        cases hf : assocFind g._versioned_functions v with
        | some l => simp [hf]
        | none =>
          simp only [hf]
          have h2 : ¬(v = stripAts vl0) := fun h => hv h.symm
          have h3 : (v ∈ stripAts vl0 :: versionLabelsOf rest) ↔ (v ∈ versionLabelsOf rest) := by
            simp [List.mem_cons, h2]
          rw [if_congr h3 rfl rfl]

theorem mem_firstSights (v : String) : ∀ (l seen : List String),
    v ∈ firstSights seen l ↔ v ∈ l ∧ v ∉ seen := by
  intro l
  induction l with
  | nil =>
    intro seen
    simp [firstSights]
  | cons a rest ih =>
    intro seen
    by_cases ha : a ∈ seen
    · rw [show firstSights seen (a :: rest) = firstSights seen rest from by
        simp [firstSights, ha]]
      rw [ih seen]
      constructor
      · rintro ⟨h1, h2⟩
        exact ⟨List.mem_cons_of_mem _ h1, h2⟩
      · rintro ⟨h1, h2⟩
        rcases List.mem_cons.mp h1 with rfl | h3
        · exact absurd ha h2
        · exact ⟨h3, h2⟩
    · rw [show firstSights seen (a :: rest) =
          a :: firstSights (seen ++ [a]) rest from by simp [firstSights, ha]]
      rw [List.mem_cons, ih (seen ++ [a])]
      constructor
      · rintro (rfl | ⟨h1, h2⟩)
        · exact ⟨List.mem_cons_self _ _, ha⟩
        · refine ⟨List.mem_cons_of_mem _ h1, fun hs => h2 (List.mem_append_left _ hs)⟩
      · rintro ⟨h1, h2⟩
        by_cases hva : v = a
        · exact Or.inl hva
        · right
          have h3 : v ∈ rest := by
            rcases List.mem_cons.mp h1 with h | h
            · exact absurd h hva
            · exact h
          refine ⟨h3, fun hs => ?_⟩
          rcases List.mem_append.mp hs with hs1 | hs2
          · exact h2 hs1
          · simp at hs2
            exact hva hs2

theorem nodup_firstSights : ∀ (l seen : List String), (firstSights seen l).Nodup := by
  intro l
  induction l with
  | nil =>
    intro seen
    simp [firstSights]
  | cons a rest ih =>
    intro seen
    by_cases ha : a ∈ seen
    · rw [show firstSights seen (a :: rest) = firstSights seen rest from by
        simp [firstSights, ha]]
      exact ih seen
    · rw [show firstSights seen (a :: rest) =
          a :: firstSights (seen ++ [a]) rest from by simp [firstSights, ha]]
      refine List.nodup_cons.mpr ⟨?_, ih _⟩
      intro hmem
      rw [mem_firstSights] at hmem
      exact hmem.2 (List.mem_append_right _ (by simp))

theorem assoc_reconstruct {β : Type} (d : β) : ∀ (T : List (String × β)),
    (T.map Prod.fst).Nodup →
    T = (T.map Prod.fst).map (fun k => (k, (assocFind T k).getD d)) := by
  intro T
  induction T with
  | nil =>
    intro _
    rfl
  | cons p rest ih =>
    intro h
    obtain ⟨k, v⟩ := p
    have h2 : (k :: rest.map Prod.fst).Nodup := h
    have hnd := List.nodup_cons.mp h2
    simp only [List.map_cons]
    congr 1
    · simp [assocFind]
    · have hx : ∀ a ∈ rest.map Prod.fst,
          (fun q => (q, (assocFind ((k, v) :: rest) q).getD d)) a =
          (fun q => (q, (assocFind rest q).getD d)) a := by
        intro a ha
        have hak : ¬(k = a) := fun he => hnd.1 (he ▸ ha)
        simp [assocFind, hak]
      calc rest = (rest.map Prod.fst).map (fun q => (q, (assocFind rest q).getD d)) := ih hnd.2
        _ = (rest.map Prod.fst).map (fun q => (q, (assocFind ((k, v) :: rest) q).getD d)) :=
          (List.map_congr_left hx).symm

theorem versionRender_cons_ne (p : String × List String) (rest : List (String × List String)) :
    versionRender (p :: rest) ≠ "" := by
  intro h
  have hd := str_data_inj h
  rw [show versionRender (p :: rest) = renderVersionEntry p ++ versionRender rest from rfl,
    str_data_append] at hd
  have h2 := List.append_eq_nil.mp hd
  have h3 := h2.1
  rw [show renderVersionEntry p =
      p.1 ++ " \x7b global : " ++ String.intercalate "; " p.2 ++ "; \x7d;\n" from rfl,
    str_data_append, str_data_append, str_data_append] at h3
  have h4 := (List.append_eq_nil.mp h3).2
  exact absurd h4 (by decide)

theorem exists_versioned_iff (fns : List FnSpec) :
    (∃ f ∈ fns, f.version_label ≠ none) ↔ versionLabelsOf fns ≠ [] := by
  constructor
  · rintro ⟨f, hf, hne⟩ hnil
    have h1 := List.filterMap_eq_nil_iff.mp hnil f hf
    rw [Option.map_eq_none'] at h1
    exact hne h1
  · intro h
    by_contra hc
    push_neg at hc
    refine h (List.filterMap_eq_nil_iff.mpr (fun f hf => ?_))
    rw [Option.map_eq_none']
    exact hc f hf

/-- Claim C7: starting from a fresh run, the accumulated version table
equals the spec-side grouping: one entry per distinct stripped version
label in first-sighting order, listing the original names registered
under that label in registration order; the rendered version script is
the rendering of that grouping (so two entries foo and bar labelled
V1 share a single V1 stanza listing both); and the document is
non-empty exactly when some entry carried a version label. -/
theorem C7_version_script (ns : String) (fns : List FnSpec) :
    (runFns (CodeGen.init ns) fns)._versioned_functions = specGrouping fns ∧
    (runFns (CodeGen.init ns) fns).get_version_contents = versionRender (specGrouping fns) ∧
    ((runFns (CodeGen.init ns) fns).get_version_contents ≠ "" ↔
      ∃ f ∈ fns, f.version_label ≠ none) := by
  have hkeys : (runFns (CodeGen.init ns) fns)._versioned_functions.map Prod.fst =
      firstSights [] (versionLabelsOf fns) := by
    have h := runFns_vf_keys fns (CodeGen.init ns)
    simpa [CodeGen.init] using h
  have hfind : ∀ v, assocFind (runFns (CodeGen.init ns) fns)._versioned_functions v =
      (if v ∈ versionLabelsOf fns then some (namesUnder fns v) else none) := by
    intro v
    have h := runFns_vf_find fns (CodeGen.init ns) v
    simpa [CodeGen.init, assocFind] using h
  have hnodup : ((runFns (CodeGen.init ns) fns)._versioned_functions.map Prod.fst).Nodup := by
    rw [hkeys]
    exact nodup_firstSights _ _
  have htable : (runFns (CodeGen.init ns) fns)._versioned_functions = specGrouping fns := by
    have hrec := assoc_reconstruct ([] : List String) _ hnodup
    rw [hrec, hkeys]
    unfold specGrouping
    apply List.map_congr_left
    intro v hv
    have hvl : v ∈ versionLabelsOf fns := ((mem_firstSights v (versionLabelsOf fns) []).mp hv).1
    rw [hfind v, if_pos hvl]
    rfl
  refine ⟨htable, ?_, ?_⟩
  · show versionRender (runFns (CodeGen.init ns) fns)._versioned_functions = _
    rw [htable]
  · rw [show (runFns (CodeGen.init ns) fns).get_version_contents =
        versionRender (runFns (CodeGen.init ns) fns)._versioned_functions from rfl, htable,
      exists_versioned_iff]
    constructor
    · intro h hnil
      apply h
      have hg : specGrouping fns = [] := by
        unfold specGrouping
        rw [hnil]
        rfl
      rw [hg]
      rfl
    · intro h
      cases hl : versionLabelsOf fns with
      | nil => exact absurd hl h
      | cons a rest =>
        have hg : specGrouping fns = (a, namesUnder fns a) ::
            ((firstSights [a] rest).map (fun v => (v, namesUnder fns v))) := by
          unfold specGrouping
          rw [hl]
          simp [firstSights]
        rw [hg]
        exact versionRender_cons_ne _ _
